import Mathlib

/-!
Verification development for `scripts/package.py` of the janus repository.

The script is embedded shallowly: the on-disk state is a finite list of files
and directories (paths are lists of components, absolute from the project
root), network and the external build step are oracles in an `Env`, console
progress output is dropped, and the observable side effects each claim needs
(wiping the shared scratch root, performing a network transfer, the two error
prints, starting a platform iteration, running the build step) are recorded in
an event trace.  Python exceptions are the `Outcome.exc` results, `return n`
is `Outcome.ret n`.  Archive bytes are modelled structurally: a file's data is
either raw bytes or a zip/tar archive given by its entry list (entry paths are
kept unnormalised, so a traversal component `".."` stays visible).
-/

namespace Janus

/-- Path components, absolute from the project root. -/
abbrev FPath := List String

/-- `root` is an ancestor of (or equal to) `p`. -/
def isUnder : FPath → FPath → Bool
  | [], _ => true
  | _ :: _, [] => false
  | a :: as, b :: bs => a == b && isUnder as bs

/-- One member of an archive: path inside the archive, byte content, mode. -/
structure ArcEnt where
  path : FPath
  content : String
  mode : Nat
deriving DecidableEq

/-- File contents.  `zipData m es` stands for the bytes of a zip archive with
compression method `m` and members `es`; `tgzData es` for a gzipped tar. -/
inductive FileData where
  | raw (content : String)
  | zipData (method : String) (entries : List ArcEnt)
  | tgzData (entries : List ArcEnt)
deriving DecidableEq

/-- Raw bytes of a data value (archives are opaque as bytes). -/
def FileData.rawContent : FileData → String
  | .raw s => s
  | .zipData _ _ => ""
  | .tgzData _ => ""

/-- A file in the modelled filesystem. -/
structure FileEnt where
  path : FPath
  data : FileData
  mode : Nat
deriving DecidableEq

/-- The modelled filesystem: explicit directories plus files. -/
structure FS where
  dirs : List FPath
  files : List FileEnt
deriving DecidableEq

def FS.fileAt (fs : FS) (p : FPath) : Option FileEnt :=
  fs.files.find? (fun f => f.path == p)

def FS.dataAt (fs : FS) (p : FPath) : Option FileData :=
  (fs.fileAt p).map (·.data)

/-- `Path.exists()`: an explicit directory, a file, or an implied ancestor
directory of a file. -/
def FS.pathExists (fs : FS) (p : FPath) : Bool :=
  fs.dirs.contains p || fs.files.any (fun f => isUnder p f.path)

/-- `shutil.rmtree` semantics once the root is known to exist. -/
def FS.rmtreeF (fs : FS) (p : FPath) : FS :=
  ⟨fs.dirs.filter (fun d => !(isUnder p d)),
   fs.files.filter (fun f => !(isUnder p f.path))⟩

def prefixesOf (p : FPath) : List FPath :=
  (List.range (p.length + 1)).map (fun n => p.take n)

/-- `mkdir(parents=True, exist_ok=True)`. -/
def FS.mkdirP (fs : FS) (p : FPath) : FS :=
  ⟨prefixesOf p ++ fs.dirs, fs.files⟩

/-- Create or overwrite the file at `p`. -/
def FS.writeF (fs : FS) (p : FPath) (d : FileData) (m : Nat) : FS :=
  ⟨fs.dirs, ⟨p, d, m⟩ :: fs.files.filter (fun f => !(f.path == p))⟩

/-- `Path.unlink()`. -/
def FS.unlinkF (fs : FS) (p : FPath) : FS :=
  ⟨fs.dirs, fs.files.filter (fun f => !(f.path == p))⟩

/-- `Path.rename(dst)` for a file, replacing `dst` when present. -/
def FS.renameF (fs : FS) (src dst : FPath) : FS :=
  match fs.fileAt src with
  | some f => (fs.unlinkF src).writeF dst f.data f.mode
  | none => fs

/-- `Path.chmod(m)`. -/
def FS.chmodF (fs : FS) (p : FPath) (m : Nat) : FS :=
  ⟨fs.dirs, fs.files.map (fun f => if f.path == p then ⟨f.path, f.data, m⟩ else f)⟩

/-- `shutil.move(src, dst)` of a directory tree to a fresh destination. -/
def FS.moveTree (fs : FS) (src dst : FPath) : FS :=
  ⟨fs.dirs.map (fun d => if isUnder src d then dst ++ d.drop src.length else d),
   fs.files.map (fun f =>
     if isUnder src f.path then ⟨dst ++ f.path.drop src.length, f.data, f.mode⟩ else f)⟩

/-- Errors that propagate as Python exceptions. -/
inductive PyError where
  | fileNotFound (path : FPath)
  | downloadError
  | badArchive
  | outsideDestination (path : FPath)
deriving DecidableEq

/-- Observable side effects of a run. -/
inductive Event where
  | rmtreeTmpRoot
  | httpGet (url : String)
  | missingJarError
  | missingExecError
  | gradle
  | beginPlatform (key : String)
deriving DecidableEq

/-- Paths and data model constants of the script. -/
def APP_NAME : String := "janus"

def WORK_DIR : FPath := ["target", "packaging"]

def TMP_DIR : FPath := WORK_DIR ++ ["tmp"]

def OUTPUT_DIR : FPath := WORK_DIR ++ ["output"]

def JDK_DIR : FPath := WORK_DIR ++ ["jdks"]

def LIBS_DIR : FPath := ["build", "libs"]

inductive ArchiveType where
  | TGZ
  | ZIP
deriving DecidableEq

inductive ShellType where
  | BASH
  | BAT
deriving DecidableEq

structure JDK where
  id : String
  download_url : String
  archive_type : ArchiveType
deriving DecidableEq

structure Platform where
  key : String
  jdk : JDK
  jar_platform_classifier : String
  shell_type : ShellType
  compress_to : ArchiveType
deriving DecidableEq

/-- The `platforms` registry, in insertion order. -/
def windows_x86_64 : Platform :=
  { key := "windows-x86_64"
    jdk :=
      { id := "kona-25.0.1-windows-x86_64"
        download_url := "https://github.com/Tencent/TencentKona-25/releases/download/TencentKona-25.0.1/TencentKona-25.0.1.b1_jdk_windows-x86_64_signed.zip"
        archive_type := ArchiveType.ZIP }
    jar_platform_classifier := "windows-x86_64"
    shell_type := ShellType.BAT
    compress_to := ArchiveType.ZIP }

def linux_x86_64 : Platform :=
  { key := "linux-x86_64"
    jdk :=
      { id := "kona-25.0.1-linux-x86_64"
        download_url := "https://github.com/Tencent/TencentKona-25/releases/download/TencentKona-25.0.1/TencentKona-25.0.1.b1-jdk_linux-x86_64.tar.gz"
        archive_type := ArchiveType.TGZ }
    jar_platform_classifier := "linux-x86_64"
    shell_type := ShellType.BASH
    compress_to := ArchiveType.TGZ }

def platformsList : List Platform := [windows_x86_64, linux_x86_64]

/-- `generate_bash_script` from the source, verbatim template. -/
def generate_bash_script (java_exec_path jar_path : String) : String :=
  "#!/bin/bash\n" ++
    java_exec_path ++ " --enable-native-access=ALL-UNNAMED -jar " ++ jar_path ++ " \"$@\"\n"

/-- `generate_bat_script` from the source, verbatim template. -/
def generate_bat_script (java_exec_path jar_path : String) : String :=
  "@echo off\r\n" ++
    java_exec_path ++ " --enable-native-access=ALL-UNNAMED -jar " ++ jar_path ++ " %*\r\n"

/-- Result of one `requests.get` of the download URL. -/
inductive HttpResult where
  | success (body : FileData)
  | httpError
  | midTransfer (part : FileData)
deriving DecidableEq

/-- Oracles: the network, tarfile `filter=` support, build-step result. -/
structure Env where
  http : String → HttpResult
  supportsFilter : Bool
  gradleResult : Int

structure PPState where
  fs : FS
  events : List Event
deriving DecidableEq

/-- A stage of `package_platform` either continues, returns a nonzero code,
or raises.  The carried state is the state at that point. -/
inductive StageResult where
  | ok (s : PPState)
  | fail (s : PPState) (code : Int)
  | raise (s : PPState) (e : PyError)
deriving DecidableEq

def StageResult.andThen (r : StageResult) (f : PPState → StageResult) : StageResult :=
  match r with
  | .ok s => f s
  | .fail s c => .fail s c
  | .raise s e => .raise s e

def StageResult.state : StageResult → PPState
  | .ok s => s
  | .fail s _ => s
  | .raise s _ => s

inductive Outcome where
  | ret (code : Int)
  | exc (e : PyError)
deriving DecidableEq

structure PPResult where
  fs : FS
  events : List Event
  outcome : Outcome
deriving DecidableEq

/-- `shutil.rmtree(path, onexc=remove_readonly)` (source line 107): when the
path is missing, `os.lstat` fails, the error goes to `remove_readonly`, whose
`os.chmod(path, stat.S_IWRITE)` itself raises `FileNotFoundError`; when the
path exists the handler clears read-only bits so removal always succeeds. -/
def rmtreeWithHandler (fs : FS) (p : FPath) : Except PyError FS :=
  if fs.pathExists p then .ok (fs.rmtreeF p) else .error (.fileNotFound p)

def platform_tmp_folder (pl : Platform) : FPath := TMP_DIR ++ [pl.key]

/-- Lines 108-116 after the scratch-root wipe succeeded: recreate the
standing directories and give this platform a fresh scratch subdirectory. -/
def scratch_dirs_fs (pl : Platform) (fs1 : FS) : FS :=
  let fs2 := ((fs1.mkdirP OUTPUT_DIR).mkdirP JDK_DIR).mkdirP TMP_DIR
  let ptf := platform_tmp_folder pl
  let fs3 := if fs2.pathExists ptf then fs2.rmtreeF ptf else fs2
  fs3.mkdirP ptf

/-- Step 1 of `package_platform` (lines 106-116): wipe the shared scratch
root (raising on a missing root, see `rmtreeWithHandler`), then rebuild the
directory skeleton via `scratch_dirs_fs`. -/
def ensure_dirs (pl : Platform) (s : PPState) : StageResult :=
  match rmtreeWithHandler s.fs TMP_DIR with
  | .error e => .raise s e
  | .ok fs1 => .ok ⟨scratch_dirs_fs pl fs1, s.events ++ [Event.rmtreeTmpRoot]⟩

/-- `extension = 'zip' if ... == ArchiveType.ZIP else 'tar.gz'` (line 120). -/
def archive_extension (t : ArchiveType) : String :=
  match t with
  | .ZIP => "zip"
  | .TGZ => "tar.gz"

def jdk_archive_path (j : JDK) : FPath :=
  JDK_DIR ++ [j.id ++ "." ++ archive_extension j.archive_type]

def jdk_archive_path_tmp : FPath := JDK_DIR ++ ["jdk.part"]

/-- Step 2 of `package_platform` (lines 118-148): remove any stale temporary
download file, then either hit the cache (no network) or stream the body into
the temporary file and rename it to the final cache name on success.  A
`raise_for_status` failure (`httpError`) happens before the temporary file is
opened; a mid-transfer failure leaves the partial temporary file behind.
Either transport failure propagates as an uncaught exception. -/
def download_jdk (env : Env) (pl : Platform) (s : PPState) : StageResult :=
  let finalP := jdk_archive_path pl.jdk
  let fs0 := if (s.fs.fileAt jdk_archive_path_tmp).isSome
             then s.fs.unlinkF jdk_archive_path_tmp else s.fs
  if (fs0.fileAt finalP).isSome then
    .ok ⟨fs0, s.events⟩
  else
    match env.http pl.jdk.download_url with
    | .success body =>
        let fs1 := fs0.writeF jdk_archive_path_tmp body 0o644
        .ok ⟨fs1.renameF jdk_archive_path_tmp finalP,
             s.events ++ [Event.httpGet pl.jdk.download_url]⟩
    | .httpError =>
        .raise ⟨fs0, s.events ++ [Event.httpGet pl.jdk.download_url]⟩ PyError.downloadError
    | .midTransfer part =>
        .raise ⟨fs0.writeF jdk_archive_path_tmp part 0o644,
                s.events ++ [Event.httpGet pl.jdk.download_url]⟩ PyError.downloadError

/-- An archive member path escaping the destination (the tarfile `'data'`
filter rejects such members with `OutsideDestinationError`). -/
def hasTraversal (p : FPath) : Bool := p.contains ".."

def extractEntries (fs : FS) (dest : FPath) (entries : List ArcEnt) : FS :=
  entries.foldl (fun acc e => acc.writeF (dest ++ e.path) (.raw e.content) e.mode) fs

/-- Step 3 of `package_platform` (lines 150-163): extract the cached archive
into the platform scratch directory.  For tar, `extractall(..., filter='data')`
rejects traversal members when the interpreter supports the argument
(`env.supportsFilter`); on older interpreters that call raises `TypeError`
and the code falls back to unrestricted `extractall` into the same
destination. -/
def extract_jdk (env : Env) (pl : Platform) (s : PPState) : StageResult :=
  let ptf := platform_tmp_folder pl
  match s.fs.fileAt (jdk_archive_path pl.jdk) with
  | none => .raise s (.fileNotFound (jdk_archive_path pl.jdk))
  | some f =>
    match pl.jdk.archive_type, f.data with
    | .ZIP, .zipData _ entries => .ok ⟨extractEntries s.fs ptf entries, s.events⟩
    | .TGZ, .tgzData entries =>
        if env.supportsFilter then
          match entries.find? (fun e => hasTraversal e.path) with
          | some e => .raise s (.outsideDestination e.path)
          | none => .ok ⟨extractEntries s.fs ptf entries, s.events⟩
        else
          .ok ⟨extractEntries s.fs ptf entries, s.events⟩
    | _, _ => .raise s .badArchive

/-- `jar_name = f"janus-{version_tag}-{platform.jar_platform_classifier}.jar"`. -/
def jarName (pl : Platform) (version_tag : String) : String :=
  "janus-" ++ version_tag ++ "-" ++ pl.jar_platform_classifier ++ ".jar"

/-- Step 4 of `package_platform` (lines 165-174): copy the build artifact into
the bundle, returning 1 (after the missing-JAR print) when it is absent. -/
def copy_jar (pl : Platform) (version_tag : String) (s : PPState) : StageResult :=
  let jn := jarName pl version_tag
  match s.fs.fileAt (LIBS_DIR ++ [jn]) with
  | none => .fail ⟨s.fs, s.events ++ [Event.missingJarError]⟩ 1
  | some f => .ok ⟨s.fs.writeF (platform_tmp_folder pl ++ [jn]) f.data f.mode, s.events⟩

def javaExecName (st : ShellType) : String :=
  match st with
  | .BASH => "java"
  | .BAT => "java.exe"

/-- A path relative to the scratch directory that `rglob("bin/java*")` plus
the loop's exact-name test accepts: its parent component is `bin` and its
final component is `java` (BASH) or `java.exe` (BAT). -/
def matchesJavaExec (pl : Platform) (rel : FPath) : Bool :=
  match rel.reverse with
  | name :: parent :: _ => parent == "bin" && name == javaExecName pl.shell_type
  | _ => false

/-- Step 5 of `package_platform` (lines 176-188): first file in the scratch
tree whose parent directory is `bin` and whose name is the expected java
executable name, as a path relative to the scratch directory. -/
def find_java_path (fs : FS) (pl : Platform) : Option FPath :=
  let ptf := platform_tmp_folder pl
  (fs.files.find? (fun f =>
      isUnder ptf f.path && matchesJavaExec pl (f.path.drop ptf.length))).map
    (fun f => f.path.drop ptf.length)

def script_base_name : String := "run-janus"

def pathToString (p : FPath) : String := String.intercalate "/" p

/-- Steps 5-6 of `package_platform` (lines 176-204): locate the java
executable (returning 1 after the missing-executable print when absent) and
write the launcher script, chmod 0o755 for the shell flavour. -/
def create_run_script (pl : Platform) (version_tag : String) (s : PPState) : StageResult :=
  let ptf := platform_tmp_folder pl
  match find_java_path s.fs pl with
  | none => .fail ⟨s.fs, s.events ++ [Event.missingExecError]⟩ 1
  | some relp =>
    let jn := jarName pl version_tag
    match pl.shell_type with
    | .BAT =>
        .ok ⟨s.fs.writeF (ptf ++ [script_base_name ++ ".bat"])
              (.raw (generate_bat_script (pathToString relp) jn)) 0o644,
             s.events⟩
    | .BASH =>
        let sp := ptf ++ [script_base_name ++ ".sh"]
        let fs1 := s.fs.writeF sp
          (.raw (generate_bash_script ("./" ++ pathToString relp) jn)) 0o644
        .ok ⟨fs1.chmodF sp 0o755, s.events⟩

def final_dir_name (pl : Platform) (version_tag : String) : String :=
  "janus-" ++ version_tag ++ "-" ++ pl.key

/-- Step 7 of `package_platform` (lines 206-214): delete any pre-existing
output directory of the final name, then move the bundle there. -/
def relocate (pl : Platform) (version_tag : String) (s : PPState) : StageResult :=
  let final_path := OUTPUT_DIR ++ [final_dir_name pl version_tag]
  let fs1 := if s.fs.pathExists final_path then s.fs.rmtreeF final_path else s.fs
  .ok ⟨fs1.moveTree (platform_tmp_folder pl) final_path, s.events⟩

/-- Step 8 of `package_platform` (lines 216-228): compress the relocated
bundle.  ZIP uses `zipfile.ZIP_DEFLATED` and member names
`file_path.relative_to(final_path)`; tar uses `arcname=final_dir_name`, so
only the tar flavour gets the final name as archive-internal root. -/
def compress_output (pl : Platform) (version_tag : String) (s : PPState) : StageResult :=
  let fdn := final_dir_name pl version_tag
  let final_path := OUTPUT_DIR ++ [fdn]
  let archive_path := OUTPUT_DIR ++ [fdn ++ "." ++ archive_extension pl.compress_to]
  let bundleFiles := s.fs.files.filter (fun f => isUnder final_path f.path)
  match pl.compress_to with
  | .ZIP =>
      let entries := bundleFiles.map (fun f =>
        ArcEnt.mk (f.path.drop final_path.length) f.data.rawContent f.mode)
      .ok ⟨s.fs.writeF archive_path (.zipData "ZIP_DEFLATED" entries) 0o644, s.events⟩
  | .TGZ =>
      let entries := bundleFiles.map (fun f =>
        ArcEnt.mk (fdn :: f.path.drop final_path.length) f.data.rawContent f.mode)
      .ok ⟨s.fs.writeF archive_path (.tgzData entries) 0o644, s.events⟩

/-- A completed stage chain as the Python caller sees it: falling off the end
of the function is `return 0`. -/
def StageResult.toResult : StageResult → PPResult
  | .ok s => ⟨s.fs, s.events, .ret 0⟩
  | .fail s c => ⟨s.fs, s.events, .ret c⟩
  | .raise s e => ⟨s.fs, s.events, .exc e⟩

/-- `package_platform` (lines 105-230): the stages in source order. -/
def package_platform (env : Env) (pl : Platform) (version_tag : String) (fs : FS) : PPResult :=
  ((((((((StageResult.ok ⟨fs, []⟩).andThen (ensure_dirs pl)).andThen
      (download_jdk env pl)).andThen (extract_jdk env pl)).andThen
      (copy_jar pl version_tag)).andThen (create_run_script pl version_tag)).andThen
      (relocate pl version_tag)).andThen (compress_output pl version_tag)).toResult

/-- The platform loop of `main` (lines 242-247): stop at the first platform
whose packaging returns nonzero; an exception propagates immediately. -/
def main_loop (env : Env) (version_tag : String) : FS → List Platform → PPResult
  | fs, [] => ⟨fs, [], .ret 0⟩
  | fs, p :: rest =>
    let r := package_platform env p version_tag fs
    if r.outcome = Outcome.ret 0 then
      let r2 := main_loop env version_tag r.fs rest
      ⟨r2.fs, Event.beginPlatform p.key :: r.events ++ r2.events, r2.outcome⟩
    else
      ⟨r.fs, Event.beginPlatform p.key :: r.events, r.outcome⟩

/-- `main` (lines 233-250): run the build step once; a nonzero result returns
immediately, otherwise process the registry in order. -/
def main (env : Env) (version_tag : String) (fs : FS) : PPResult :=
  if env.gradleResult ≠ 0 then ⟨fs, [Event.gradle], .ret env.gradleResult⟩
  else
    let r := main_loop env version_tag fs platformsList
    ⟨r.fs, Event.gradle :: r.events, r.outcome⟩

/-- Number of network transfers recorded in a trace. -/
def countHttp (evs : List Event) : Nat :=
  (evs.filter (fun x => match x with | .httpGet _ => true | _ => false)).length

def countEv (e : Event) (evs : List Event) : Nat :=
  (evs.filter (fun x => x == e)).length

/-- Spec-side reading of §4.5 / C3: ZIP member names relative to the bundle
directory's PARENT, i.e. each member carries the final bundle name as its
root component.  Kept only to compare against `compress_output`. -/
def zipEntriesSpecRooted (fs : FS) (pl : Platform) (version_tag : String) : List ArcEnt :=
  let fdn := final_dir_name pl version_tag
  let final_path := OUTPUT_DIR ++ [fdn]
  (fs.files.filter (fun f => isUnder final_path f.path)).map (fun f =>
    ArcEnt.mk (fdn :: f.path.drop final_path.length) f.data.rawContent f.mode)

/-- Events a stage other than the scratch-root wipe may record. -/
def stageEvent : Event → Bool
  | .httpGet _ => true
  | .missingJarError => true
  | .missingExecError => true
  | _ => false

/-- Events that may appear anywhere in the platform loop's trace. -/
def loopEvent (e : Event) : Bool :=
  stageEvent e || e == Event.rmtreeTmpRoot ||
    (match e with | .beginPlatform _ => true | _ => false)

/-- Test fixtures: two small ZIP platforms (`plA` with its artifact present,
`plB`/`plC` without), a TGZ platform `plL`, oracles and starting
filesystems. -/
def jdkA : JDK := { id := "jA", download_url := "uA", archive_type := ArchiveType.ZIP }

def plA : Platform :=
  { key := "pA", jdk := jdkA, jar_platform_classifier := "cA"
    shell_type := ShellType.BAT, compress_to := ArchiveType.ZIP }

def jdkB : JDK := { id := "jB", download_url := "uB", archive_type := ArchiveType.ZIP }

def plB : Platform :=
  { key := "pB", jdk := jdkB, jar_platform_classifier := "cB"
    shell_type := ShellType.BAT, compress_to := ArchiveType.ZIP }

def plC : Platform :=
  { key := "pC", jdk := jdkB, jar_platform_classifier := "cC"
    shell_type := ShellType.BAT, compress_to := ArchiveType.ZIP }

def zipBody : FileData :=
  FileData.zipData "store" [⟨["jdk", "bin", "java.exe"], "JAVA", 493⟩]

def envT : Env := { http := fun _ => .success zipBody, supportsFilter := true, gradleResult := 0 }

def envErr : Env := { http := fun _ => .httpError, supportsFilter := true, gradleResult := 0 }

def envMid : Env :=
  { http := fun _ => .midTransfer (.raw "PARTBYTES"), supportsFilter := true, gradleResult := 0 }

def fsT : FS :=
  { dirs := [TMP_DIR], files := [⟨LIBS_DIR ++ ["janus-0.1-cA.jar"], .raw "JAR", 420⟩] }

def fsCached : FS :=
  { dirs := [TMP_DIR], files := [⟨jdk_archive_path jdkA, zipBody, 420⟩] }

def fsJava : FS :=
  { dirs := [], files := [⟨platform_tmp_folder plA ++ ["jdk", "bin", "java.exe"], .raw "J", 493⟩] }

def jdkL : JDK := { id := "jL", download_url := "uL", archive_type := ArchiveType.TGZ }

def plL : Platform :=
  { key := "pL", jdk := jdkL, jar_platform_classifier := "cL"
    shell_type := ShellType.BASH, compress_to := ArchiveType.TGZ }

def tgzEntriesEvil : List ArcEnt := [⟨["..", "evil"], "X", 420⟩]

def fsTgz : FS :=
  { dirs := [TMP_DIR], files := [⟨jdk_archive_path jdkL, .tgzData tgzEntriesEvil, 420⟩] }

def plZ : Platform :=
  { key := "px", jdk := jdkA, jar_platform_classifier := "cx"
    shell_type := ShellType.BAT, compress_to := ArchiveType.ZIP }

def fsZ : FS :=
  { dirs := [], files := [⟨OUTPUT_DIR ++ ["janus-0.1-px", "a.txt"], .raw "hi", 420⟩] }

/-! Generic helper lemmas about `find?`, `isUnder` and last characters. -/

theorem find?_filter_of_imp {α : Type} (l : List α) (p q : α → Bool)
    (h : ∀ a, p a = true → q a = true) : (l.filter q).find? p = l.find? p := by
  induction l with
  | nil => rfl
  | cons a t ih =>
    by_cases hp : p a = true
    · have hq := h a hp
      simp [List.filter_cons, hq, List.find?_cons, hp, ih]
    · by_cases hq : q a = true
      · simp [List.filter_cons, hq, List.find?_cons, hp, ih]
      · simp [List.filter_cons, hq, List.find?_cons, hp, ih]

theorem find?_filter_none {α : Type} (l : List α) (p q : α → Bool)
    (h : ∀ a, p a = true → q a = false) : (l.filter q).find? p = none := by
  induction l with
  | nil => rfl
  | cons a t ih =>
    by_cases hq : q a = true
    · have hp : p a = false := by
        cases hpa : p a
        · rfl
        · exact absurd (h a hpa) (by simp [hq])
      simp [List.filter_cons, hq, List.find?_cons, hp, ih]
    · simp [List.filter_cons, hq, ih]

theorem isUnder_append (p r : FPath) : isUnder p (p ++ r) = true := by
  induction p with
  | nil => rfl
  | cons a t ih => simp [isUnder, ih]

theorem isUnder_refl (p : FPath) : isUnder p p = true := by
  have := isUnder_append p []
  simpa using this

theorem append_drop_of_isUnder : ∀ {p q : FPath}, isUnder p q = true →
    p ++ q.drop p.length = q
  | [], _, _ => rfl
  | a :: t, [], h => by simp [isUnder] at h
  | a :: t, b :: u, h => by
    simp only [isUnder, Bool.and_eq_true, beq_iff_eq] at h
    simpa [h.1] using append_drop_of_isUnder (p := t) (q := u) h.2

theorem not_isUnder_of_diverge : ∀ (xs : FPath) (a b : String), a ≠ b →
    ∀ (ys zs q : FPath), isUnder (xs ++ a :: ys) q = true →
      isUnder (xs ++ b :: zs) q = false
  | [], a, b, hab, ys, zs, q, h => by
    match q with
    | [] => simp [isUnder] at h
    | c :: q' =>
      simp only [List.nil_append, isUnder, Bool.and_eq_true, beq_iff_eq] at h
      have hbc : (b == c) = false := beq_eq_false_iff_ne.mpr (fun hbc => hab (h.1.trans hbc.symm))
      simp [isUnder, hbc]
  | x :: xs, a, b, hab, ys, zs, q, h => by
    match q with
    | [] => simp [isUnder] at h
    | c :: q' =>
      simp only [List.cons_append, isUnder, Bool.and_eq_true, beq_iff_eq] at h
      simp [isUnder, h.1, not_isUnder_of_diverge xs a b hab ys zs q' h.2]

theorem ne_of_revhead {a b : String} (h : a.data.reverse.head? ≠ b.data.reverse.head?) :
    a ≠ b := fun hab => h (hab ▸ rfl)

theorem revhead_append (s t : String) (c : Char) (h : t.data.reverse.head? = some c) :
    (s ++ t).data.reverse.head? = some c := by
  rw [String.data_append, List.reverse_append]
  cases hr : t.data.reverse with
  | nil => rw [hr] at h; simp at h
  | cons x r =>
    rw [hr] at h
    simp only [List.head?] at h
    simpa using h

theorem append_singleton_ne (p : FPath) {a b : String} (h : a ≠ b) : p ++ [a] ≠ p ++ [b] := by
  intro hh
  exact h (by simpa using List.append_cancel_left hh)

theorem cache_name_ne_tmp (j : JDK) : jdk_archive_path j ≠ jdk_archive_path_tmp := by
  unfold jdk_archive_path jdk_archive_path_tmp
  apply append_singleton_ne
  apply ne_of_revhead
  cases j.archive_type with
  | ZIP =>
    rw [revhead_append _ _ 'p' (by decide)]
    decide
  | TGZ =>
    rw [revhead_append _ _ 'z' (by decide)]
    decide

theorem jarName_revhead (pl : Platform) (v : String) :
    (jarName pl v).data.reverse.head? = some 'r' := by
  unfold jarName
  exact revhead_append _ _ 'r' (by decide)

/-! `fileAt` frame lemmas for the filesystem operations. -/

theorem fileAt_writeF_self (fs : FS) (p : FPath) (d : FileData) (m : Nat) :
    (fs.writeF p d m).fileAt p = some ⟨p, d, m⟩ := by
  simp [FS.writeF, FS.fileAt, List.find?_cons]

theorem fileAt_writeF_ne (fs : FS) (p : FPath) (d : FileData) (m : Nat) (q : FPath)
    (h : q ≠ p) : (fs.writeF p d m).fileAt q = fs.fileAt q := by
  unfold FS.writeF FS.fileAt
  rw [List.find?_cons_of_neg]
  · exact find?_filter_of_imp _ _ _ (fun f hf => by
      simp only [beq_iff_eq] at hf
      simp [hf, h])
  · simp [h.symm]

theorem fileAt_unlinkF_self (fs : FS) (p : FPath) : (fs.unlinkF p).fileAt p = none := by
  unfold FS.unlinkF FS.fileAt
  exact find?_filter_none _ _ _ (fun f hf => by
    simp only [beq_iff_eq] at hf
    simp [hf])

theorem fileAt_unlinkF_ne (fs : FS) (p q : FPath) (h : q ≠ p) :
    (fs.unlinkF p).fileAt q = fs.fileAt q := by
  unfold FS.unlinkF FS.fileAt
  exact find?_filter_of_imp _ _ _ (fun f hf => by
    simp only [beq_iff_eq] at hf
    simp [hf, h])

theorem fileAt_rmtreeF_not_under (fs : FS) (p q : FPath) (h : isUnder p q = false) :
    (fs.rmtreeF p).fileAt q = fs.fileAt q := by
  unfold FS.rmtreeF FS.fileAt
  exact find?_filter_of_imp _ _ _ (fun f hf => by
    simp only [beq_iff_eq] at hf
    simp [hf, h])

theorem fileAt_rmtreeF_under (fs : FS) (p q : FPath) (h : isUnder p q = true) :
    (fs.rmtreeF p).fileAt q = none := by
  unfold FS.rmtreeF FS.fileAt
  exact find?_filter_none _ _ _ (fun f hf => by
    simp only [beq_iff_eq] at hf
    simp [hf, h])

theorem find?_pathmap (t : List FileEnt) (g : FileEnt → FileEnt)
    (hpath : ∀ f, (g f).path = f.path) (q : FPath) :
    (t.map g).find? (fun f => f.path == q) =
      (t.find? (fun f => f.path == q)).map g := by
  induction t with
  | nil => rfl
  | cons f t ih =>
    simp only [List.map_cons, List.find?, hpath f]
    cases hfq : (f.path == q) with
    | true => simp
    | false => simpa using ih

theorem fileAt_chmodF_ne (fs : FS) (p : FPath) (m : Nat) (q : FPath) (h : q ≠ p) :
    (fs.chmodF p m).fileAt q = fs.fileAt q := by
  unfold FS.chmodF FS.fileAt
  rw [find?_pathmap _ _ (fun f => by by_cases hf : f.path = p <;> simp [hf]) q]
  cases hr : fs.files.find? (fun f => f.path == q) with
  | none => rfl
  | some f =>
    have hq := List.find?_some hr
    simp only [beq_iff_eq] at hq
    simp [hq, h]

theorem fileAt_chmodF_self (fs : FS) (p : FPath) (m : Nat) :
    (fs.chmodF p m).fileAt p = (fs.fileAt p).map (fun f => ⟨f.path, f.data, m⟩) := by
  unfold FS.chmodF FS.fileAt
  rw [find?_pathmap _ _ (fun f => by by_cases hf : f.path = p <;> simp [hf]) p]
  cases hr : fs.files.find? (fun f => f.path == p) with
  | none => rfl
  | some f =>
    have hq := List.find?_some hr
    simp only [beq_iff_eq] at hq
    simp [hq]

theorem find?_moveTree_src (l : List FileEnt) (src dst rel : FPath)
    (hl : ∀ f ∈ l, isUnder dst f.path = false) :
    (l.map (fun f => if isUnder src f.path then
        FileEnt.mk (dst ++ f.path.drop src.length) f.data f.mode else f)).find?
        (fun f => f.path == dst ++ rel)
      = (l.find? (fun f => f.path == src ++ rel)).map
          (fun f => FileEnt.mk (dst ++ rel) f.data f.mode) := by
  induction l with
  | nil => rfl
  | cons f t ih =>
    have hl' : ∀ g ∈ t, isUnder dst g.path = false :=
      fun g hg => hl g (List.mem_cons_of_mem _ hg)
    by_cases hs : isUnder src f.path = true
    · have hfp : src ++ f.path.drop src.length = f.path := append_drop_of_isUnder hs
      by_cases hrel : f.path.drop src.length = rel
      · have h2 : (f.path == src ++ rel) = true := by rw [← hfp, hrel]; simp
        simp only [List.map_cons, List.find?, hs, if_true, hrel, beq_self_eq_true, h2]
        simp [hrel]
      · have h1 : (dst ++ f.path.drop src.length == dst ++ rel) = false := by
          refine beq_eq_false_iff_ne.mpr ?_
          intro he
          exact hrel (List.append_cancel_left he)
        have h2 : (f.path == src ++ rel) = false := by
          refine beq_eq_false_iff_ne.mpr ?_
          intro he
          rw [← hfp] at he
          exact hrel (List.append_cancel_left he)
        simp only [List.map_cons, List.find?, hs, if_true, h1, h2]
        exact ih hl'
    · have h1 : (f.path == dst ++ rel) = false := by
        refine beq_eq_false_iff_ne.mpr ?_
        intro he
        have hd := hl f (List.mem_cons_self f t)
        rw [he, isUnder_append] at hd
        cases hd
      have h2 : (f.path == src ++ rel) = false := by
        refine beq_eq_false_iff_ne.mpr ?_
        intro he
        rw [he] at hs
        exact hs (isUnder_append _ _)
      simp only [List.map_cons, List.find?, if_neg hs, h1, h2]
      exact ih hl'

theorem find?_moveTree_frame (l : List FileEnt) (src dst q : FPath)
    (hq1 : isUnder src q = false) (hq2 : isUnder dst q = false) :
    (l.map (fun f => if isUnder src f.path then
        FileEnt.mk (dst ++ f.path.drop src.length) f.data f.mode else f)).find?
        (fun f => f.path == q)
      = l.find? (fun f => f.path == q) := by
  induction l with
  | nil => rfl
  | cons f t ih =>
    by_cases hs : isUnder src f.path = true
    · have h1 : (dst ++ f.path.drop src.length == q) = false := by
        refine beq_eq_false_iff_ne.mpr ?_
        intro he
        rw [← he, isUnder_append] at hq2
        cases hq2
      have h2 : (f.path == q) = false := by
        refine beq_eq_false_iff_ne.mpr ?_
        intro he
        rw [he, hq1] at hs
        cases hs
      simp only [List.map_cons, List.find?, hs, if_true, h1, h2]
      exact ih
    · simp only [List.map_cons, List.find?, if_neg hs]
      cases hfq : (f.path == q) with
      | true => rfl
      | false => exact ih

theorem extractEntries_isSome (entries : List ArcEnt) (fs : FS) (dest p : FPath)
    (h : (∃ e ∈ entries, dest ++ e.path = p) ∨ (fs.fileAt p).isSome = true) :
    ((extractEntries fs dest entries).fileAt p).isSome = true := by
  induction entries generalizing fs with
  | nil =>
    rcases h with ⟨e, he, _⟩ | h
    · exact absurd he (List.not_mem_nil e)
    · simpa [extractEntries] using h
  | cons e t ih =>
    show ((extractEntries (fs.writeF (dest ++ e.path) (.raw e.content) e.mode) dest t).fileAt
        p).isSome = true
    apply ih
    rcases h with ⟨e', he', hp⟩ | h
    · rcases List.mem_cons.mp he' with rfl | he'
      · right
        rw [← hp, fileAt_writeF_self]
        rfl
      · exact Or.inl ⟨e', he', hp⟩
    · right
      by_cases hpe : p = dest ++ e.path
      · rw [hpe, fileAt_writeF_self]; rfl
      · rw [fileAt_writeF_ne _ _ _ _ _ hpe]; exact h

/-! Event-trace lemmas: every stage after the scratch wipe only appends
stage events. -/

theorem download_jdk_events (env : Env) (pl : Platform) (s : PPState) :
    ∃ ex, (download_jdk env pl s).state.events = s.events ++ ex ∧ ex.all stageEvent = true := by
  unfold download_jdk
  dsimp only
  split
  all_goals try split
  all_goals try split
  all_goals try (refine ⟨[], ?_, rfl⟩; simp [StageResult.state]; done)
  all_goals refine ⟨[Event.httpGet pl.jdk.download_url], ?_, rfl⟩
  all_goals simp [StageResult.state]

theorem extract_jdk_events (env : Env) (pl : Platform) (s : PPState) :
    ∃ ex, (extract_jdk env pl s).state.events = s.events ++ ex ∧ ex.all stageEvent = true := by
  unfold extract_jdk
  dsimp only
  split
  all_goals try split
  all_goals try split
  all_goals try split
  all_goals refine ⟨[], ?_, rfl⟩
  all_goals simp [StageResult.state]

theorem copy_jar_events (pl : Platform) (v : String) (s : PPState) :
    ∃ ex, (copy_jar pl v s).state.events = s.events ++ ex ∧ ex.all stageEvent = true := by
  unfold copy_jar
  dsimp only
  split
  all_goals try (refine ⟨[], ?_, rfl⟩; simp [StageResult.state]; done)
  all_goals refine ⟨[Event.missingJarError], ?_, rfl⟩
  all_goals simp [StageResult.state]

theorem create_run_script_events (pl : Platform) (v : String) (s : PPState) :
    ∃ ex, (create_run_script pl v s).state.events = s.events ++ ex ∧
      ex.all stageEvent = true := by
  unfold create_run_script
  dsimp only
  split
  all_goals try split
  all_goals try (refine ⟨[], ?_, rfl⟩; simp [StageResult.state]; done)
  all_goals refine ⟨[Event.missingExecError], ?_, rfl⟩
  all_goals simp [StageResult.state]

theorem relocate_events (pl : Platform) (v : String) (s : PPState) :
    ∃ ex, (relocate pl v s).state.events = s.events ++ ex ∧ ex.all stageEvent = true :=
  ⟨[], by simp [relocate, StageResult.state], rfl⟩

theorem compress_output_events (pl : Platform) (v : String) (s : PPState) :
    ∃ ex, (compress_output pl v s).state.events = s.events ++ ex ∧
      ex.all stageEvent = true := by
  unfold compress_output
  dsimp only
  split
  all_goals refine ⟨[], ?_, rfl⟩
  all_goals simp [StageResult.state]

theorem andThen_events (r : StageResult) (f : PPState → StageResult)
    (hf : ∀ s, ∃ ex, (f s).state.events = s.events ++ ex ∧ ex.all stageEvent = true) :
    ∃ ex, (r.andThen f).state.events = r.state.events ++ ex ∧ ex.all stageEvent = true := by
  cases r with
  | ok s => simpa [StageResult.andThen, StageResult.state] using hf s
  | fail s c => exact ⟨[], by simp [StageResult.andThen, StageResult.state], rfl⟩
  | raise s e => exact ⟨[], by simp [StageResult.andThen, StageResult.state], rfl⟩

theorem toResult_events (r : StageResult) : r.toResult.events = r.state.events := by
  cases r <;> rfl

theorem toResult_fs (r : StageResult) : r.toResult.fs = r.state.fs := by
  cases r <;> rfl

theorem chainAll_events (fsl : List (PPState → StageResult)) :
    ∀ r : StageResult,
      (∀ f ∈ fsl, ∀ s, ∃ ex, (f s).state.events = s.events ++ ex ∧ ex.all stageEvent = true) →
      ∃ ex, (fsl.foldl StageResult.andThen r).state.events = r.state.events ++ ex ∧
        ex.all stageEvent = true := by
  induction fsl with
  | nil => exact fun r _ => ⟨[], by simp, rfl⟩
  | cons f t ih =>
    intro r hfs
    obtain ⟨e1, h1, a1⟩ := andThen_events r f (hfs f (List.mem_cons_self f t))
    obtain ⟨e2, h2, a2⟩ :=
      ih (r.andThen f) (fun g hg s => hfs g (List.mem_cons_of_mem f hg) s)
    refine ⟨e1 ++ e2, ?_, ?_⟩
    · rw [List.foldl_cons, h2, h1, List.append_assoc]
    · simp [List.all_append, a1, a2]

theorem foldl_andThen_raise (fsl : List (PPState → StageResult)) (s : PPState) (e : PyError) :
    fsl.foldl StageResult.andThen (StageResult.raise s e) = StageResult.raise s e := by
  induction fsl with
  | nil => rfl
  | cons f t ih => simpa [List.foldl_cons, StageResult.andThen] using ih

/-- The six stages that follow the scratch wipe, in source order. -/
def laterStages (env : Env) (pl : Platform) (v : String) : List (PPState → StageResult) :=
  [download_jdk env pl, extract_jdk env pl, copy_jar pl v,
   create_run_script pl v, relocate pl v, compress_output pl v]

theorem ensure_dirs_ok (pl : Platform) (s : PPState) (hp : s.fs.pathExists TMP_DIR = true) :
    ensure_dirs pl s =
      .ok ⟨scratch_dirs_fs pl (s.fs.rmtreeF TMP_DIR), s.events ++ [Event.rmtreeTmpRoot]⟩ := by
  unfold ensure_dirs rmtreeWithHandler
  simp [hp]

theorem ensure_dirs_raise (pl : Platform) (s : PPState)
    (hp : s.fs.pathExists TMP_DIR = false) :
    ensure_dirs pl s = .raise s (PyError.fileNotFound TMP_DIR) := by
  unfold ensure_dirs rmtreeWithHandler
  simp [hp]

theorem laterStages_events (env : Env) (pl : Platform) (v : String) :
    ∀ f ∈ laterStages env pl v, ∀ s : PPState,
      ∃ ex, (f s).state.events = s.events ++ ex ∧ ex.all stageEvent = true := by
  intro f hf s
  unfold laterStages at hf
  simp only [List.mem_cons, List.not_mem_nil, or_false] at hf
  rcases hf with rfl | rfl | rfl | rfl | rfl | rfl
  · exact download_jdk_events env pl s
  · exact extract_jdk_events env pl s
  · exact copy_jar_events pl v s
  · exact create_run_script_events pl v s
  · exact relocate_events pl v s
  · exact compress_output_events pl v s

theorem package_platform_eq_foldl (env : Env) (pl : Platform) (v : String) (fs : FS) :
    package_platform env pl v fs =
      ((laterStages env pl v).foldl StageResult.andThen
        ((StageResult.ok ⟨fs, []⟩).andThen (ensure_dirs pl))).toResult := rfl

theorem pp_events_shape (env : Env) (pl : Platform) (v : String) (fs : FS) :
    (fs.pathExists TMP_DIR = false ∧ (package_platform env pl v fs).events = []) ∨
      ∃ ex, (package_platform env pl v fs).events = Event.rmtreeTmpRoot :: ex ∧
        ex.all stageEvent = true := by
  rw [package_platform_eq_foldl, toResult_events]
  have hc0 : (StageResult.ok ⟨fs, []⟩).andThen (ensure_dirs pl) = ensure_dirs pl ⟨fs, []⟩ := rfl
  rw [hc0]
  by_cases hp : fs.pathExists TMP_DIR = true
  · right
    rw [ensure_dirs_ok pl ⟨fs, []⟩ hp]
    obtain ⟨ex, hex, hall⟩ :=
      chainAll_events (laterStages env pl v)
        (StageResult.ok ⟨scratch_dirs_fs pl (FS.rmtreeF fs TMP_DIR), [] ++ [Event.rmtreeTmpRoot]⟩)
        (laterStages_events env pl v)
    exact ⟨ex, hex, hall⟩
  · left
    refine ⟨by simpa using hp, ?_⟩
    rw [ensure_dirs_raise pl ⟨fs, []⟩ (by simpa using hp), foldl_andThen_raise]
    rfl

theorem countEv_eq_zero {l : List Event} {p : Event → Bool} (hall : l.all p = true)
    {x : Event} (hx : p x = false) : countEv x l = 0 := by
  unfold countEv
  have hnil : l.filter (fun a => a == x) = [] := by
    rw [List.filter_eq_nil_iff]
    intro a ha hax
    have hpa := List.all_eq_true.mp hall a ha
    rw [beq_iff_eq] at hax
    rw [hax, hx] at hpa
    cases hpa
  rw [hnil]
  rfl

theorem pp_events_all (env : Env) (pl : Platform) (v : String) (fs : FS) :
    ∀ e ∈ (package_platform env pl v fs).events, loopEvent e = true := by
  rcases pp_events_shape env pl v fs with ⟨_, hev⟩ | ⟨ex, hev, hall⟩
  · rw [hev]
    intro e he
    exact absurd he (List.not_mem_nil e)
  · rw [hev]
    intro e he
    rcases List.mem_cons.mp he with rfl | he
    · rfl
    · have hse := List.all_eq_true.mp hall e he
      unfold loopEvent
      rw [hse]
      rfl

/-! Lemmas about the download stage. -/

theorem renameF_of_fileAt (fs : FS) (src dst : FPath) (f : FileEnt)
    (h : fs.fileAt src = some f) :
    fs.renameF src dst = (fs.unlinkF src).writeF dst f.data f.mode := by
  unfold FS.renameF
  rw [h]

theorem download_fs0_fileAt_final (fs : FS) (j : JDK) :
    (if (fs.fileAt jdk_archive_path_tmp).isSome then
        fs.unlinkF jdk_archive_path_tmp else fs).fileAt (jdk_archive_path j) =
      fs.fileAt (jdk_archive_path j) := by
  split
  · exact fileAt_unlinkF_ne _ _ _ (cache_name_ne_tmp j)
  · rfl

theorem download_fs0_fileAt_tmp (fs : FS) :
    (if (fs.fileAt jdk_archive_path_tmp).isSome then
        fs.unlinkF jdk_archive_path_tmp else fs).fileAt jdk_archive_path_tmp = none := by
  split
  · exact fileAt_unlinkF_self _ _
  · next hc => exact Option.not_isSome_iff_eq_none.mp (by simpa using hc)

theorem download_jdk_cache_hit (env : Env) (pl : Platform) (s : PPState)
    (h : (s.fs.fileAt (jdk_archive_path pl.jdk)).isSome = true) :
    ∃ s', download_jdk env pl s = .ok s' ∧ s'.events = s.events ∧
      s'.fs.fileAt (jdk_archive_path pl.jdk) = s.fs.fileAt (jdk_archive_path pl.jdk) := by
  have hd : download_jdk env pl s =
      .ok ⟨(if (s.fs.fileAt jdk_archive_path_tmp).isSome then
              s.fs.unlinkF jdk_archive_path_tmp else s.fs), s.events⟩ := by
    unfold download_jdk
    dsimp only
    rw [download_fs0_fileAt_final s.fs pl.jdk, h]
    simp
  exact ⟨_, hd, rfl, download_fs0_fileAt_final s.fs pl.jdk⟩

theorem download_jdk_ok_final (env : Env) (pl : Platform) (s s1 : PPState)
    (h : download_jdk env pl s = .ok s1) :
    (s1.fs.fileAt (jdk_archive_path pl.jdk)).isSome = true := by
  unfold download_jdk at h
  dsimp only at h
  split at h
  all_goals try split at h
  all_goals try split at h
  all_goals cases h
  all_goals try assumption
  all_goals rw [renameF_of_fileAt _ _ _ _ (fileAt_writeF_self _ _ _ _), fileAt_writeF_self]
  all_goals rfl

/-! The claims. -/

/-- C1: download atomicity.  On a cache miss the temporary download name
differs from the final cache name; a successful transfer leaves the body under
the final cache name and no temporary file (the rename happens only after
completion); a transport failure before the body is opened (`httpError`) or
mid-transfer (`midTransfer`) propagates as an uncaught download exception and
leaves nothing under the final cache name — at most the incomplete temporary
file; any stale temporary file present at entry has been removed before the
attempt, so after an `httpError` no temporary file remains either. -/
theorem c1_download_atomicity (env : Env) (pl : Platform) (s : PPState)
    (hmiss : s.fs.fileAt (jdk_archive_path pl.jdk) = none) :
    jdk_archive_path pl.jdk ≠ jdk_archive_path_tmp
  ∧ (∀ body, env.http pl.jdk.download_url = HttpResult.success body →
      ∃ s', download_jdk env pl s = .ok s'
        ∧ s'.fs.fileAt (jdk_archive_path pl.jdk) =
            some ⟨jdk_archive_path pl.jdk, body, 0o644⟩
        ∧ s'.fs.fileAt jdk_archive_path_tmp = none)
  ∧ (env.http pl.jdk.download_url = HttpResult.httpError →
      ∃ s', download_jdk env pl s = .raise s' PyError.downloadError
        ∧ s'.fs.fileAt (jdk_archive_path pl.jdk) = none
        ∧ s'.fs.fileAt jdk_archive_path_tmp = none)
  ∧ (∀ part, env.http pl.jdk.download_url = HttpResult.midTransfer part →
      ∃ s', download_jdk env pl s = .raise s' PyError.downloadError
        ∧ s'.fs.fileAt (jdk_archive_path pl.jdk) = none
        ∧ s'.fs.fileAt jdk_archive_path_tmp = some ⟨jdk_archive_path_tmp, part, 0o644⟩) := by
  have hne := cache_name_ne_tmp pl.jdk
  have h0P : (if (s.fs.fileAt jdk_archive_path_tmp).isSome then
      s.fs.unlinkF jdk_archive_path_tmp else s.fs).fileAt (jdk_archive_path pl.jdk) = none :=
    (download_fs0_fileAt_final s.fs pl.jdk).trans hmiss
  have h0T : (if (s.fs.fileAt jdk_archive_path_tmp).isSome then
      s.fs.unlinkF jdk_archive_path_tmp else s.fs).fileAt jdk_archive_path_tmp = none :=
    download_fs0_fileAt_tmp s.fs
  refine ⟨hne, ?_, ?_, ?_⟩
  · intro body heq
    unfold download_jdk
    dsimp only
    rw [h0P, heq]
    refine ⟨_, rfl, ?_, ?_⟩
    · rw [renameF_of_fileAt _ _ _ _ (fileAt_writeF_self _ _ _ _), fileAt_writeF_self]
    · rw [renameF_of_fileAt _ _ _ _ (fileAt_writeF_self _ _ _ _),
        fileAt_writeF_ne _ _ _ _ _ (Ne.symm hne), fileAt_unlinkF_self]
  · intro heq
    unfold download_jdk
    dsimp only
    rw [h0P, heq]
    exact ⟨_, rfl, h0P, h0T⟩
  · intro part heq
    unfold download_jdk
    dsimp only
    rw [h0P, heq]
    refine ⟨_, rfl, ?_, ?_⟩
    · rw [fileAt_writeF_ne _ _ _ _ _ hne]
      exact h0P
    · rw [fileAt_writeF_self]

/-- C1 witness: a concrete mid-transfer failure on the small fixture leaves
the partial body only under the temporary name. -/
theorem c1_witness :
    fsT.fileAt (jdk_archive_path plA.jdk) = none
  ∧ (∃ s', download_jdk envMid plA ⟨fsT, []⟩ = .raise s' PyError.downloadError
      ∧ s'.fs.fileAt (jdk_archive_path plA.jdk) = none
      ∧ s'.fs.fileAt jdk_archive_path_tmp =
          some ⟨jdk_archive_path_tmp, FileData.raw "PARTBYTES", 0o644⟩) :=
  ⟨by decide,
   (c1_download_atomicity envMid plA ⟨fsT, []⟩ (by decide)).2.2.2 (FileData.raw "PARTBYTES") rfl⟩

/-- C2: cache idempotence.  A fetch that finds the cache entry returns with
the trace unchanged (no network transfer) and the entry untouched; after any
successful fetch a second fetch of the same runtime id performs no transfer
and sees the identical entry (the cache path is the same function
`jdk_archive_path` of the id in both calls); two consecutive fetches perform
at most one transfer in total. -/
theorem c2_cache_idempotence (env : Env) (pl : Platform) (s : PPState) :
    ((s.fs.fileAt (jdk_archive_path pl.jdk)).isSome = true →
      ∃ s', download_jdk env pl s = .ok s'
        ∧ s'.events = s.events
        ∧ s'.fs.fileAt (jdk_archive_path pl.jdk) = s.fs.fileAt (jdk_archive_path pl.jdk))
  ∧ (∀ s1, download_jdk env pl s = .ok s1 →
      ∃ s2, download_jdk env pl ⟨s1.fs, []⟩ = .ok s2
        ∧ countHttp s2.events = 0
        ∧ s2.fs.fileAt (jdk_archive_path pl.jdk) = s1.fs.fileAt (jdk_archive_path pl.jdk))
  ∧ (∀ s1, download_jdk env pl ⟨s.fs, []⟩ = .ok s1 → countHttp s1.events ≤ 1) := by
  refine ⟨fun h => download_jdk_cache_hit env pl s h, ?_, ?_⟩
  · intro s1 h1
    have hsome := download_jdk_ok_final env pl s s1 h1
    obtain ⟨s2, h2, hev, hpre⟩ := download_jdk_cache_hit env pl ⟨s1.fs, []⟩ hsome
    refine ⟨s2, h2, ?_, hpre⟩
    rw [hev]
    rfl
  · intro s1 h1
    unfold download_jdk at h1
    dsimp only at h1
    split at h1
    all_goals try split at h1
    all_goals try split at h1
    all_goals cases h1
    all_goals simp [countHttp]

/-- C2 witness: with the cache pre-populated the fetch is a no-transfer hit. -/
theorem c2_witness :
    (fsCached.fileAt (jdk_archive_path plA.jdk)).isSome = true
  ∧ (∃ s', download_jdk envT plA ⟨fsCached, []⟩ = .ok s'
      ∧ s'.events = ([] : List Event)
      ∧ s'.fs.fileAt (jdk_archive_path plA.jdk) = fsCached.fileAt (jdk_archive_path plA.jdk)) :=
  ⟨by decide, (c2_cache_idempotence envT plA ⟨fsCached, []⟩).1 (by decide)⟩

/-- C6 counterexample: a two-platform run in which both platforms are
processed (each `beginPlatform` occurs once) wipes the shared scratch root
twice — once per platform iteration — not once per run as claimed. -/
theorem c6_counterexample :
    countEv (Event.beginPlatform "pA") (main_loop envT "0.1" fsT [plA, plB]).events = 1
  ∧ countEv (Event.beginPlatform "pB") (main_loop envT "0.1" fsT [plA, plB]).events = 1
  ∧ countEv Event.rmtreeTmpRoot (main_loop envT "0.1" fsT [plA, plB]).events = 2 :=
  ⟨by decide, by decide, by decide⟩

/-- C6 (amended): the shared scratch root is wiped at the start of EVERY
platform's processing — each `package_platform` call whose scratch root exists
begins with exactly one wipe of the shared root — not only once per run.  The
per-platform scratch subdirectory claim is unchanged. -/
theorem c6_wipe_every_platform (env : Env) (pl : Platform) (v : String) (fs : FS)
    (h : fs.pathExists TMP_DIR = true) :
    (package_platform env pl v fs).events.head? = some Event.rmtreeTmpRoot
  ∧ countEv Event.rmtreeTmpRoot (package_platform env pl v fs).events = 1 := by
  rcases pp_events_shape env pl v fs with ⟨hp, _⟩ | ⟨ex, hev, hall⟩
  · rw [h] at hp
    cases hp
  · rw [hev]
    refine ⟨rfl, ?_⟩
    have hz : countEv Event.rmtreeTmpRoot ex = 0 := countEv_eq_zero hall rfl
    unfold countEv at hz ⊢
    rw [List.filter_cons]
    simp only [beq_self_eq_true, if_true, List.length_cons, hz]

/-- C6 witness: the fixture run wipes the shared root exactly once for the
single platform call. -/
theorem c6_witness :
    fsT.pathExists TMP_DIR = true
  ∧ (package_platform envT plA "0.1" fsT).events.head? = some Event.rmtreeTmpRoot
  ∧ countEv Event.rmtreeTmpRoot (package_platform envT plA "0.1" fsT).events = 1 :=
  ⟨by decide, (c6_wipe_every_platform envT plA "0.1" fsT (by decide)).1,
   (c6_wipe_every_platform envT plA "0.1" fsT (by decide)).2⟩

/-- C10: `package_platform` starts with
`shutil.rmtree(TMP_DIR, onexc=remove_readonly)`; when the shared scratch root
does not yet exist, the handler's `os.chmod` on the missing path raises an
unhandled `FileNotFoundError`, so the call aborts with that exception, no
stage runs, and the filesystem is untouched — the pipeline succeeds only under
the precondition that the scratch root already exists. -/
theorem c10_missing_scratch_root (env : Env) (pl : Platform) (v : String) (fs : FS)
    (h : fs.pathExists TMP_DIR = false) :
    package_platform env pl v fs = ⟨fs, [], Outcome.exc (PyError.fileNotFound TMP_DIR)⟩ := by
  rw [package_platform_eq_foldl]
  have hc0 : (StageResult.ok ⟨fs, []⟩).andThen (ensure_dirs pl) = ensure_dirs pl ⟨fs, []⟩ := rfl
  rw [hc0, ensure_dirs_raise pl ⟨fs, []⟩ h, foldl_andThen_raise]
  rfl

/-- C10 witness: on an empty filesystem (fresh checkout) the first platform's
processing raises `FileNotFoundError` for the scratch root. -/
theorem c10_witness :
    FS.pathExists ⟨[], []⟩ TMP_DIR = false
  ∧ package_platform envT plA "0.1" ⟨[], []⟩ =
      ⟨⟨[], []⟩, [], Outcome.exc (PyError.fileNotFound TMP_DIR)⟩ :=
  ⟨by decide, c10_missing_scratch_root envT plA "0.1" ⟨[], []⟩ (by decide)⟩

theorem jar_ne_script_sh (pl : Platform) (v : String) :
    jarName pl v ≠ script_base_name ++ ".sh" := by
  apply ne_of_revhead
  rw [jarName_revhead]
  decide

theorem jar_ne_script_bat (pl : Platform) (v : String) :
    jarName pl v ≠ script_base_name ++ ".bat" := by
  apply ne_of_revhead
  rw [jarName_revhead]
  decide

theorem find_java_path_mem (s : PPState) (pl : Platform) (rel : FPath)
    (hfind : find_java_path s.fs pl = some rel) :
    ∃ f ∈ s.fs.files, f.path = platform_tmp_folder pl ++ rel := by
  unfold find_java_path at hfind
  rcases Option.map_eq_some'.mp hfind with ⟨f, hf, hrel⟩
  refine ⟨f, List.mem_of_find?_eq_some hf, ?_⟩
  have hp := List.find?_some hf
  rw [Bool.and_eq_true] at hp
  rw [← hrel, append_drop_of_isUnder hp.1]

/-- C5: launcher generation.  The script base name is the fixed `run-janus`;
the path handed to the generator is the located executable's path relative to
the bundle root (it resolves to a file in the scratch tree); for `BASH`
(UNIX_SHELL) the stage writes `run-janus.sh` with the bash template applied to
`./<relative path>` and the artifact name and chmods it to `0o755`; for `BAT`
(WINDOWS_BATCH) it writes `run-janus.bat` with the batch template (file mode
left at the default).  The bash template is a shebang line followed by the
invocation line `<exec> --enable-native-access=ALL-UNNAMED -jar <jar> "$@"`;
the batch template is `@echo off` followed by the same invocation with `%*`,
every line ending in CRLF. -/
theorem c5_launcher_scripts (pl : Platform) (v : String) (s : PPState) (rel : FPath)
    (hfind : find_java_path s.fs pl = some rel) :
    script_base_name = "run-janus"
  ∧ (∃ f ∈ s.fs.files, f.path = platform_tmp_folder pl ++ rel)
  ∧ (pl.shell_type = ShellType.BASH →
      ∃ s', create_run_script pl v s = .ok s'
        ∧ s'.events = s.events
        ∧ s'.fs.fileAt (platform_tmp_folder pl ++ [script_base_name ++ ".sh"]) =
            some ⟨platform_tmp_folder pl ++ [script_base_name ++ ".sh"],
                  FileData.raw (generate_bash_script ("./" ++ pathToString rel) (jarName pl v)),
                  0o755⟩)
  ∧ (pl.shell_type = ShellType.BAT →
      ∃ s', create_run_script pl v s = .ok s'
        ∧ s'.events = s.events
        ∧ s'.fs.fileAt (platform_tmp_folder pl ++ [script_base_name ++ ".bat"]) =
            some ⟨platform_tmp_folder pl ++ [script_base_name ++ ".bat"],
                  FileData.raw (generate_bat_script (pathToString rel) (jarName pl v)),
                  0o644⟩)
  ∧ (∀ x y : String, (generate_bash_script x y).data =
      "#!/bin/bash\n".data ++ x.data ++ " --enable-native-access=ALL-UNNAMED -jar ".data
        ++ y.data ++ " \"$@\"\n".data)
  ∧ (∀ x y : String, (generate_bat_script x y).data =
      "@echo off\r\n".data ++ x.data ++ " --enable-native-access=ALL-UNNAMED -jar ".data
        ++ y.data ++ " %*\r\n".data) := by
  refine ⟨rfl, find_java_path_mem s pl rel hfind, ?_, ?_, ?_, ?_⟩
  · intro hsh
    unfold create_run_script
    dsimp only
    rw [hfind, hsh]
    dsimp only
    refine ⟨_, rfl, rfl, ?_⟩
    rw [fileAt_chmodF_self, fileAt_writeF_self]
    rfl
  · intro hbat
    unfold create_run_script
    dsimp only
    rw [hfind, hbat]
    dsimp only
    exact ⟨_, rfl, rfl, fileAt_writeF_self _ _ _ _⟩
  · intro x y
    simp [generate_bash_script, String.data_append, List.append_assoc]
  · intro x y
    simp [generate_bat_script, String.data_append, List.append_assoc]

/-- C5 witness: the BAT fixture platform with a located `jdk/bin/java.exe`. -/
theorem c5_witness :
    find_java_path fsJava plA = some ["jdk", "bin", "java.exe"]
  ∧ (∃ s', create_run_script plA "0.1" ⟨fsJava, []⟩ = .ok s'
      ∧ s'.events = ([] : List Event)
      ∧ s'.fs.fileAt (platform_tmp_folder plA ++ [script_base_name ++ ".bat"]) =
          some ⟨platform_tmp_folder plA ++ [script_base_name ++ ".bat"],
                FileData.raw (generate_bat_script (pathToString ["jdk", "bin", "java.exe"])
                  (jarName plA "0.1")),
                0o644⟩) :=
  ⟨by decide,
   (c5_launcher_scripts plA "0.1" ⟨fsJava, []⟩ ["jdk", "bin", "java.exe"] (by decide)).2.2.2.1 rfl⟩

/-- C7: assembler failure conditions and order.  When the artifact
`janus-<version>-<classifier>.jar` is absent from the build output directory
the composed copy-then-script stages fail with code 1 and the missing-JAR
diagnostic, independent of the extracted tree (no executable search is
consulted); when it is present it is copied into the bundle first and remains
there whatever the later search decides, and an empty search then fails with
code 1 and the missing-executable diagnostic; the search fails exactly when no
file of the scratch tree sits in a `bin` directory under the name `java`
(BASH) or `java.exe` (BAT). -/
theorem c7_assembler_order (pl : Platform) (v : String) (s : PPState) :
    (s.fs.fileAt (LIBS_DIR ++ [jarName pl v]) = none →
      (copy_jar pl v s).andThen (create_run_script pl v) =
        .fail ⟨s.fs, s.events ++ [Event.missingJarError]⟩ 1)
  ∧ (∀ fe, s.fs.fileAt (LIBS_DIR ++ [jarName pl v]) = some fe →
      ((copy_jar pl v s).andThen (create_run_script pl v)).state.fs.fileAt
          (platform_tmp_folder pl ++ [jarName pl v]) =
        some ⟨platform_tmp_folder pl ++ [jarName pl v], fe.data, fe.mode⟩
      ∧ (find_java_path (s.fs.writeF (platform_tmp_folder pl ++ [jarName pl v]) fe.data fe.mode)
            pl = none →
          (copy_jar pl v s).andThen (create_run_script pl v) =
            .fail ⟨s.fs.writeF (platform_tmp_folder pl ++ [jarName pl v]) fe.data fe.mode,
                   s.events ++ [Event.missingExecError]⟩ 1))
  ∧ (∀ fs' : FS, find_java_path fs' pl = none ↔
      ∀ f ∈ fs'.files, ¬(isUnder (platform_tmp_folder pl) f.path = true ∧
        matchesJavaExec pl (f.path.drop (platform_tmp_folder pl).length) = true))
  ∧ javaExecName ShellType.BASH = "java" ∧ javaExecName ShellType.BAT = "java.exe" := by
  refine ⟨?_, ?_, ?_, rfl, rfl⟩
  · intro hnone
    unfold copy_jar
    dsimp only
    rw [hnone]
    rfl
  · intro fe hsome
    have hcopy : copy_jar pl v s =
        .ok ⟨s.fs.writeF (platform_tmp_folder pl ++ [jarName pl v]) fe.data fe.mode, s.events⟩ := by
      unfold copy_jar
      dsimp only
      rw [hsome]
    constructor
    · rw [hcopy]
      show (create_run_script pl v _).state.fs.fileAt _ = _
      unfold create_run_script
      dsimp only
      cases hfind : find_java_path
          (s.fs.writeF (platform_tmp_folder pl ++ [jarName pl v]) fe.data fe.mode) pl with
      | none =>
        dsimp only [StageResult.state]
        exact fileAt_writeF_self _ _ _ _
      | some rel =>
        cases hst : pl.shell_type with
        | BASH =>
          dsimp only [StageResult.state]
          rw [fileAt_chmodF_ne _ _ _ _
                (append_singleton_ne _ (jar_ne_script_sh pl v)),
              fileAt_writeF_ne _ _ _ _ _
                (append_singleton_ne _ (jar_ne_script_sh pl v))]
          exact fileAt_writeF_self _ _ _ _
        | BAT =>
          dsimp only [StageResult.state]
          rw [fileAt_writeF_ne _ _ _ _ _
                (append_singleton_ne _ (jar_ne_script_bat pl v))]
          exact fileAt_writeF_self _ _ _ _
    · intro hfind
      rw [hcopy]
      show create_run_script pl v _ = _
      unfold create_run_script
      dsimp only
      rw [hfind]
  · intro fs'
    unfold find_java_path
    dsimp only
    rw [Option.map_eq_none', List.find?_eq_none]
    constructor
    · intro h f hf hand
      exact (h f hf) (by rw [Bool.and_eq_true]; exact hand)
    · intro h f hf hp
      rw [Bool.and_eq_true] at hp
      exact (h f hf) hp

/-- C7 witness: artifact present, no executable in the (empty) extracted
tree — the composed stages fail with the missing-executable diagnostic and the
copied artifact is in place. -/
theorem c7_witness :
    fsT.fileAt (LIBS_DIR ++ [jarName plA "0.1"]) =
      some ⟨LIBS_DIR ++ ["janus-0.1-cA.jar"], FileData.raw "JAR", 420⟩
  ∧ ((copy_jar plA "0.1" ⟨fsT, []⟩).andThen (create_run_script plA "0.1")).state.fs.fileAt
        (platform_tmp_folder plA ++ [jarName plA "0.1"]) =
      some ⟨platform_tmp_folder plA ++ [jarName plA "0.1"], FileData.raw "JAR", 420⟩ :=
  ⟨by decide,
   ((c7_assembler_order plA "0.1" ⟨fsT, []⟩).2.1
      ⟨LIBS_DIR ++ ["janus-0.1-cA.jar"], FileData.raw "JAR", 420⟩ (by decide)).1⟩

/-- C9: safe extraction with permissive fallback.  For a TGZ runtime archive,
when the interpreter supports `extractall(..., filter='data')` the call
rejects an archive containing a member whose path escapes the destination
(raising with that member's path) and otherwise extracts every member under
the platform scratch directory; when the interpreter lacks support (`filter=`
raises `TypeError`) the fallback performs unrestricted extraction of every
member into the same destination, traversal members included. -/
theorem c9_safe_extract (env : Env) (pl : Platform) (s : PPState) (fe : FileEnt)
    (entries : List ArcEnt)
    (harch : pl.jdk.archive_type = ArchiveType.TGZ)
    (hfile : s.fs.fileAt (jdk_archive_path pl.jdk) = some fe)
    (hdata : fe.data = FileData.tgzData entries) :
    (env.supportsFilter = true →
      (∀ e0, entries.find? (fun e => hasTraversal e.path) = some e0 →
        extract_jdk env pl s = .raise s (PyError.outsideDestination e0.path)
        ∧ hasTraversal e0.path = true)
      ∧ (entries.find? (fun e => hasTraversal e.path) = none →
        ∃ s', extract_jdk env pl s = .ok s' ∧ s'.events = s.events ∧
          ∀ e ∈ entries, (s'.fs.fileAt (platform_tmp_folder pl ++ e.path)).isSome = true))
  ∧ (env.supportsFilter = false →
      ∃ s', extract_jdk env pl s = .ok s' ∧ s'.events = s.events ∧
        ∀ e ∈ entries, (s'.fs.fileAt (platform_tmp_folder pl ++ e.path)).isSome = true) := by
  have hred : extract_jdk env pl s =
      (if env.supportsFilter then
        match entries.find? (fun e => hasTraversal e.path) with
        | some e => .raise s (PyError.outsideDestination e.path)
        | none => .ok ⟨extractEntries s.fs (platform_tmp_folder pl) entries, s.events⟩
      else .ok ⟨extractEntries s.fs (platform_tmp_folder pl) entries, s.events⟩) := by
    unfold extract_jdk
    dsimp only
    rw [hfile]
    dsimp only
    rw [harch, hdata]
  constructor
  · intro hsup
    rw [hsup] at hred
    simp only [if_true] at hred
    constructor
    · intro e0 hfound
      rw [hfound] at hred
      exact ⟨hred, by simpa using List.find?_some hfound⟩
    · intro hnone
      rw [hnone] at hred
      exact ⟨_, hred, rfl,
        fun e he => extractEntries_isSome entries s.fs _ _ (Or.inl ⟨e, he, rfl⟩)⟩
  · intro hsup
    rw [hsup] at hred
    simp only [Bool.false_eq_true, if_false] at hred
    exact ⟨_, hred, rfl,
      fun e he => extractEntries_isSome entries s.fs _ _ (Or.inl ⟨e, he, rfl⟩)⟩

/-- C9 witness: the TGZ fixture whose archive carries a traversal member is
rejected by the supported safe mode with that member's path. -/
theorem c9_witness :
    fsTgz.fileAt (jdk_archive_path plL.jdk) =
      some ⟨jdk_archive_path jdkL, FileData.tgzData tgzEntriesEvil, 420⟩
  ∧ (extract_jdk envT plL ⟨fsTgz, []⟩ =
      .raise ⟨fsTgz, []⟩ (PyError.outsideDestination ["..", "evil"])
    ∧ hasTraversal ["..", "evil"] = true) :=
  ⟨by decide,
   ((c9_safe_extract envT plL ⟨fsTgz, []⟩
        ⟨jdk_archive_path jdkL, FileData.tgzData tgzEntriesEvil, 420⟩
        tgzEntriesEvil rfl (by decide) rfl).1 rfl).1
      ⟨["..", "evil"], "X", 420⟩ (by decide)⟩

theorem no_files_of_not_pathExists (fs : FS) (p : FPath) (h : fs.pathExists p = false) :
    ∀ f ∈ fs.files, isUnder p f.path = false := by
  unfold FS.pathExists at h
  rw [Bool.or_eq_false_iff] at h
  intro f hf
  cases hu : isUnder p f.path with
  | false => rfl
  | true =>
    have : fs.files.any (fun f => isUnder p f.path) = true :=
      List.any_eq_true.mpr ⟨f, hf, hu⟩
    rw [h.2] at this
    cases this

theorem moveTree_bundle (fs : FS) (src dst : FPath)
    (hl : ∀ f ∈ fs.files, isUnder dst f.path = false) (rel : FPath) :
    (fs.moveTree src dst).fileAt (dst ++ rel) =
      (fs.fileAt (src ++ rel)).map (fun f => ⟨dst ++ rel, f.data, f.mode⟩) := by
  unfold FS.moveTree FS.fileAt
  exact find?_moveTree_src fs.files src dst rel hl

theorem moveTree_frame (fs : FS) (src dst q : FPath)
    (hq1 : isUnder src q = false) (hq2 : isUnder dst q = false) :
    (fs.moveTree src dst).fileAt q = fs.fileAt q := by
  unfold FS.moveTree FS.fileAt
  exact find?_moveTree_frame fs.files src dst q hq1 hq2

theorem fileAt_fs1_src (fs : FS) (dst p : FPath) (hnd : isUnder dst p = false) :
    (if fs.pathExists dst then fs.rmtreeF dst else fs).fileAt p = fs.fileAt p := by
  split
  · exact fileAt_rmtreeF_not_under fs dst p hnd
  · rfl

theorem fs1_no_dst_files (fs : FS) (dst : FPath) :
    ∀ f ∈ (if fs.pathExists dst then fs.rmtreeF dst else fs).files,
      isUnder dst f.path = false := by
  split
  · intro f hf
    unfold FS.rmtreeF at hf
    simp only [List.mem_filter] at hf
    simpa using hf.2
  · next h => exact no_files_of_not_pathExists fs dst (by simpa using h)

theorem ptf_not_under_out (pl : Platform) (v : String) (q : FPath)
    (h : isUnder (platform_tmp_folder pl) q = true) :
    isUnder (OUTPUT_DIR ++ [final_dir_name pl v]) q = false :=
  not_isUnder_of_diverge WORK_DIR "tmp" "output" (by decide)
    [pl.key] [final_dir_name pl v] q h

/-- C8: relocation replaces rather than merges.  The relocate stage never
fails; afterwards the files under the final output directory
`<app>-<version>-<platformKey>` are exactly the bundle's files (whatever sat
there before is gone: the tree at the final name is the image of the scratch
bundle, file for file, with data and mode preserved), and every path outside
both the final directory and the scratch bundle is untouched.  Repeating the
pipeline therefore overwrites the prior output without error and without
residue. -/
theorem c8_relocate_replaces (pl : Platform) (v : String) (s : PPState) :
    ∃ s', relocate pl v s = .ok s'
      ∧ s'.events = s.events
      ∧ (∀ rel : FPath, s'.fs.fileAt ((OUTPUT_DIR ++ [final_dir_name pl v]) ++ rel) =
          (s.fs.fileAt (platform_tmp_folder pl ++ rel)).map
            (fun f => ⟨(OUTPUT_DIR ++ [final_dir_name pl v]) ++ rel, f.data, f.mode⟩))
      ∧ (∀ q : FPath, isUnder (OUTPUT_DIR ++ [final_dir_name pl v]) q = false →
          isUnder (platform_tmp_folder pl) q = false →
          s'.fs.fileAt q = s.fs.fileAt q) := by
  refine ⟨_, rfl, rfl, ?_, ?_⟩
  · intro rel
    rw [moveTree_bundle _ _ _ (fs1_no_dst_files s.fs _) rel,
      fileAt_fs1_src s.fs _ (platform_tmp_folder pl ++ rel)
        (ptf_not_under_out pl v _ (isUnder_append _ rel))]
  · intro q hq1 hq2
    rw [moveTree_frame _ _ _ _ hq2 hq1, fileAt_fs1_src s.fs _ q hq1]

/-- C8 witness: relocating the fixture bundle over a stale output directory
replaces its content and leaves the artifact path populated from the bundle. -/
theorem c8_witness :
    (∃ s', relocate plA "0.1" ⟨fsJava, []⟩ = .ok s'
      ∧ s'.events = ([] : List Event)
      ∧ (∀ rel : FPath,
          s'.fs.fileAt ((OUTPUT_DIR ++ [final_dir_name plA "0.1"]) ++ rel) =
            (fsJava.fileAt (platform_tmp_folder plA ++ rel)).map
              (fun f => ⟨(OUTPUT_DIR ++ [final_dir_name plA "0.1"]) ++ rel, f.data, f.mode⟩))
      ∧ (∀ q : FPath, isUnder (OUTPUT_DIR ++ [final_dir_name plA "0.1"]) q = false →
          isUnder (platform_tmp_folder plA) q = false →
          s'.fs.fileAt q = fsJava.fileAt q)) :=
  c8_relocate_replaces plA "0.1" ⟨fsJava, []⟩

/-- C3 counterexample: for a ZIP platform the produced archive's member for
the bundle file `a.txt` is named `a.txt` — relative to the bundle directory
itself — whereas the claim requires the member list rooted at the final
bundle name (`zipEntriesSpecRooted`, i.e. `janus-0.1-px/a.txt`).  The two
member lists differ on this input. -/
theorem c3_counterexample :
    (compress_output plZ "0.1" ⟨fsZ, []⟩).state.fs.dataAt
        (OUTPUT_DIR ++ ["janus-0.1-px.zip"]) =
      some (FileData.zipData "ZIP_DEFLATED" [⟨["a.txt"], "hi", 420⟩])
  ∧ zipEntriesSpecRooted fsZ plZ "0.1" = [⟨["janus-0.1-px", "a.txt"], "hi", 420⟩]
  ∧ ¬ (FileData.zipData "ZIP_DEFLATED" [ArcEnt.mk ["a.txt"] "hi" 420] =
        FileData.zipData "ZIP_DEFLATED" (zipEntriesSpecRooted fsZ plZ "0.1")) :=
  ⟨by decide, by decide, by decide⟩

/-- C3 (amended): for a ZIP platform the archive written at
`<finalName>.zip` uses `zipfile.ZIP_DEFLATED` and contains exactly the files
under the bundle directory, but each member's path is relative to the bundle
directory ITSELF — the archive has no `<finalName>` root component (only the
tar flavour roots members at the final name). -/
theorem c3_zip_member_paths (pl : Platform) (v : String) (s : PPState)
    (hzip : pl.compress_to = ArchiveType.ZIP) :
    ∃ s' entries, compress_output pl v s = .ok s'
      ∧ s'.events = s.events
      ∧ s'.fs.fileAt
          (OUTPUT_DIR ++ [final_dir_name pl v ++ "." ++ archive_extension ArchiveType.ZIP]) =
        some ⟨OUTPUT_DIR ++ [final_dir_name pl v ++ "." ++ archive_extension ArchiveType.ZIP],
              FileData.zipData "ZIP_DEFLATED" entries, 0o644⟩
      ∧ (∀ e : ArcEnt, e ∈ entries ↔
          ∃ f ∈ s.fs.files, isUnder (OUTPUT_DIR ++ [final_dir_name pl v]) f.path = true ∧
            e = ⟨f.path.drop (OUTPUT_DIR ++ [final_dir_name pl v]).length,
                 f.data.rawContent, f.mode⟩) := by
  unfold compress_output
  dsimp only
  rw [hzip]
  dsimp only
  refine ⟨_, _, rfl, rfl, fileAt_writeF_self _ _ _ _, ?_⟩
  intro e
  simp only [List.mem_map, List.mem_filter]
  constructor
  · rintro ⟨f, ⟨hf, hunder⟩, rfl⟩
    exact ⟨f, hf, hunder, rfl⟩
  · rintro ⟨f, hf, hunder, rfl⟩
    exact ⟨f, ⟨hf, hunder⟩, rfl⟩

/-- C3 witness for the amended statement at the concrete ZIP fixture. -/
theorem c3_witness :
    plZ.compress_to = ArchiveType.ZIP
  ∧ ∃ s' entries, compress_output plZ "0.1" ⟨fsZ, []⟩ = .ok s'
      ∧ s'.events = ([] : List Event)
      ∧ s'.fs.fileAt
          (OUTPUT_DIR ++ [final_dir_name plZ "0.1" ++ "." ++ archive_extension ArchiveType.ZIP]) =
        some ⟨OUTPUT_DIR ++ [final_dir_name plZ "0.1" ++ "." ++ archive_extension ArchiveType.ZIP],
              FileData.zipData "ZIP_DEFLATED" entries, 0o644⟩
      ∧ (∀ e : ArcEnt, e ∈ entries ↔
          ∃ f ∈ fsZ.files, isUnder (OUTPUT_DIR ++ [final_dir_name plZ "0.1"]) f.path = true ∧
            e = ⟨f.path.drop (OUTPUT_DIR ++ [final_dir_name plZ "0.1"]).length,
                 f.data.rawContent, f.mode⟩) :=
  ⟨rfl, c3_zip_member_paths plZ "0.1" ⟨fsZ, []⟩ rfl⟩

theorem main_loop_cons_ok (env : Env) (v : String) (fs : FS) (p : Platform)
    (rest : List Platform) (h : (package_platform env p v fs).outcome = Outcome.ret 0) :
    main_loop env v fs (p :: rest) =
      ⟨(main_loop env v (package_platform env p v fs).fs rest).fs,
       Event.beginPlatform p.key :: (package_platform env p v fs).events ++
         (main_loop env v (package_platform env p v fs).fs rest).events,
       (main_loop env v (package_platform env p v fs).fs rest).outcome⟩ := by
  simp only [main_loop]
  rw [if_pos h]

theorem main_loop_cons_fail (env : Env) (v : String) (fs : FS) (p : Platform)
    (rest : List Platform) (h : (package_platform env p v fs).outcome ≠ Outcome.ret 0) :
    main_loop env v fs (p :: rest) =
      ⟨(package_platform env p v fs).fs,
       Event.beginPlatform p.key :: (package_platform env p v fs).events,
       (package_platform env p v fs).outcome⟩ := by
  simp only [main_loop]
  rw [if_neg h]

theorem pp_no_beginPlatform (env : Env) (pl : Platform) (v : String) (fs : FS) (k : String) :
    Event.beginPlatform k ∉ (package_platform env pl v fs).events := by
  rcases pp_events_shape env pl v fs with ⟨_, hev⟩ | ⟨ex, hev, hall⟩ <;> rw [hev]
  · exact List.not_mem_nil _
  · intro hmem
    rcases List.mem_cons.mp hmem with h | h
    · cases h
    · have hse := List.all_eq_true.mp hall _ h
      simp [stageEvent] at hse

theorem main_loop_events_all (env : Env) (v : String) :
    ∀ (pls : List Platform) (fs : FS) (e : Event),
      e ∈ (main_loop env v fs pls).events → loopEvent e = true := by
  intro pls
  induction pls with
  | nil =>
    intro fs e he
    exact absurd he (List.not_mem_nil e)
  | cons p rest ih =>
    intro fs e he
    by_cases h : (package_platform env p v fs).outcome = Outcome.ret 0
    · rw [main_loop_cons_ok env v fs p rest h] at he
      dsimp only at he
      rcases List.mem_cons.mp he with rfl | he'
      · rfl
      · rcases List.mem_append.mp he' with h2 | h2
        · exact pp_events_all env p v fs e h2
        · exact ih _ e h2
    · rw [main_loop_cons_fail env v fs p rest h] at he
      dsimp only at he
      rcases List.mem_cons.mp he with rfl | he'
      · rfl
      · exact pp_events_all env p v fs e he'

/-- C4: fail-fast orchestration.  `main` records the external build step
first and exactly once; a nonzero build result returns immediately with no
platform processed and the filesystem untouched; in the platform loop, when
the first platform succeeds and the second fails (nonzero return or
exception), the run's result is exactly the second platform's failure with the
trace of platforms 1 and 2 only, and no event of a third registered platform
(distinct key) ever occurs. -/
theorem c4_fail_fast (env : Env) (fs : FS) (v : String) (p1 p2 p3 : Platform) :
    (main env v fs).events.head? = some Event.gradle
  ∧ countEv Event.gradle (main env v fs).events = 1
  ∧ (env.gradleResult ≠ 0 →
      main env v fs = ⟨fs, [Event.gradle], Outcome.ret env.gradleResult⟩)
  ∧ ((package_platform env p1 v fs).outcome = Outcome.ret 0 →
     (package_platform env p2 v (package_platform env p1 v fs).fs).outcome ≠ Outcome.ret 0 →
      main_loop env v fs [p1, p2, p3] =
        ⟨(package_platform env p2 v (package_platform env p1 v fs).fs).fs,
         Event.beginPlatform p1.key :: (package_platform env p1 v fs).events ++
           (Event.beginPlatform p2.key ::
             (package_platform env p2 v (package_platform env p1 v fs).fs).events),
         (package_platform env p2 v (package_platform env p1 v fs).fs).outcome⟩
      ∧ (p3.key ≠ p1.key → p3.key ≠ p2.key →
          Event.beginPlatform p3.key ∉ (main_loop env v fs [p1, p2, p3]).events)) := by
  refine ⟨?_, ?_, ?_, ?_⟩
  · unfold main
    split
    · rfl
    · rfl
  · unfold main
    split
    · rfl
    · show countEv Event.gradle
        (Event.gradle :: (main_loop env v fs platformsList).events) = 1
      have hz : countEv Event.gradle (main_loop env v fs platformsList).events = 0 :=
        countEv_eq_zero
          (List.all_eq_true.mpr (fun e he => main_loop_events_all env v platformsList fs e he))
          rfl
      unfold countEv at hz ⊢
      rw [List.filter_cons]
      simp only [beq_self_eq_true, if_true, List.length_cons, hz]
  · intro hg
    unfold main
    rw [if_pos hg]
  · intro h1 h2
    have hc : main_loop env v fs [p1, p2, p3] =
        ⟨(package_platform env p2 v (package_platform env p1 v fs).fs).fs,
         Event.beginPlatform p1.key :: (package_platform env p1 v fs).events ++
           (Event.beginPlatform p2.key ::
             (package_platform env p2 v (package_platform env p1 v fs).fs).events),
         (package_platform env p2 v (package_platform env p1 v fs).fs).outcome⟩ := by
      rw [main_loop_cons_ok env v fs p1 [p2, p3] h1,
        main_loop_cons_fail env v (package_platform env p1 v fs).fs p2 [p3] h2]
    refine ⟨hc, ?_⟩
    intro hk1 hk2 hmem
    rw [hc] at hmem
    dsimp only at hmem
    rcases List.mem_cons.mp hmem with heq | hmem'
    · exact hk1 (Event.beginPlatform.inj heq)
    · rcases List.mem_append.mp hmem' with h | h
      · exact pp_no_beginPlatform env p1 v fs p3.key h
      · rcases List.mem_cons.mp h with heq | h
        · exact hk2 (Event.beginPlatform.inj heq)
        · exact pp_no_beginPlatform env p2 v (package_platform env p1 v fs).fs p3.key h

/-- C4 witness: on the fixture, platform `pA` succeeds, `pB` fails (missing
artifact), and no event of `pC` appears in the loop's trace. -/
theorem c4_witness :
    (package_platform envT plA "0.1" fsT).outcome = Outcome.ret 0
  ∧ (package_platform envT plB "0.1" (package_platform envT plA "0.1" fsT).fs).outcome ≠
      Outcome.ret 0
  ∧ Event.beginPlatform plC.key ∉ (main_loop envT "0.1" fsT [plA, plB, plC]).events :=
  ⟨by decide, by decide,
   ((c4_fail_fast envT fsT "0.1" plA plB plC).2.2.2 (by decide) (by decide)).2
     (by decide) (by decide)⟩

end Janus
